import Mathlib

/-!
# ISS driver (`src/iss_driver.c`): request/acknowledge protocol of the co-simulation bridge

A shallow embedding of the C driver that sits between a Unicorn RISC-V engine and a
SystemVerilog test bench.

* The file-scope globals (`req_addr`, `req_wdata`, `req_write`, `req_valid`, `g_halted`,
  `file_size`) are the fields of the record `Iss`, passed explicitly.
* C `int` is a 32-bit two-complement integer, `uint64_t`, `size_t` and `unsigned long`
  are 64 bits wide (LP64); conversions and wrap-around are written out with `%`.  The
  arithmetic helpers are in the section on integer conversions.
* The Unicorn engine is an external library.  Of its state the record keeps the two
  registers the driver reads and writes (`pc`, `sp`; the engine is opened with
  `UC_MODE_RISCV32`, so a register holds 32 bits) and the number of `uc_emu_stop` calls
  it has received.  What the engine does during one `uc_emu_start` is not decided by the
  driver; it is an argument (`EngineRun`): the accesses for which it calls the installed
  hooks, in order, and the register values it ends with.
* `printf` output is kept as a list of lines (`stdout`).
-/

namespace IssDriver

/-! ## Constants -/

def RAM_BASE : Nat := 0x80000000

def RAM_SIZE : Nat := 2 * 1024 * 1024

def GPIO_BASE : Nat := 0x10000000

def GPIO_SIZE : Nat := 0x1000

/-- The enumeration `req_mode_t`: `M_IDLE = 0, M_RD, M_WR`. -/
inductive req_mode_t where
  | M_IDLE
  | M_RD
  | M_WR
deriving DecidableEq, Repr

open req_mode_t

/-- The integer value of an enumerator. -/
def req_mode_t.toNat : req_mode_t → Nat
  | M_IDLE => 0
  | M_RD => 1
  | M_WR => 2

/-! ## Integer conversions

Each helper is written so that its evaluation stops at once on a symbolic argument (no
symbolic term is added to a large constant before a reduction modulo a power of two). -/

/-- The cast `(int)x` of an `int64_t`: the 32-bit two-complement value congruent to `x`. -/
def int_of_i64 (x : Int) : Int := (x + 2 ^ 31) % 2 ^ 32 - 2 ^ 31

/-- The cast `(int)n` of a `uint64_t` or `size_t`: the low 32 bits of `n`, read as
two-complement. -/
def int_of_u64 (n : Nat) : Int :=
  if n % 2 ^ 32 < 2 ^ 31 then ((n % 2 ^ 32 : Nat) : Int) else ((n % 2 ^ 32 : Nat) : Int) - 2 ^ 32

/-- The cast `(unsigned)x` of an `int`. -/
def to_unsigned (x : Int) : Nat := (x % 2 ^ 32).toNat

/-- The conversion of an `int` to `unsigned long` / `uint64_t`. -/
def to_u64 (x : Int) : Nat := (x % 2 ^ 64).toNat

/-- The sum `a + b` of two `uint64_t` / `unsigned long` values (the constant operand is put
first inside, so that the sum does not unfold when `a` is symbolic). -/
def u64_add (a b : Nat) : Nat := (b + a) % 2 ^ 64

/-- The difference `a - b` of two `size_t` values. -/
def u64_sub (a b : Nat) : Nat := (((a : Int) - (b : Int)) % 2 ^ 64).toNat

/-- The cast `(unsigned char)x`. -/
def to_uchar (x : Nat) : Nat := x % 256

/-! ## State -/

/-- One line written to standard output, with the values that are formatted into it. -/
inductive Line where
  /-- Line `"[TLM GPIO] write = 0x%08X"`. -/
  | tlm_gpio_write (wdata : Nat)
  /-- Line `"[HOOK-W] addr=... size=... val=..."`. -/
  | hook_w (addr : Nat) (size : Int) (val : Nat)
  /-- Line `"[TLM GPIO] read -> 0x%08X"`. -/
  | tlm_gpio_read (rdata : Nat)
  /-- Line `"Loaded %lu bytes into RAM at 0x%08lX"`. -/
  | loaded (size base : Nat)
  /-- Line `"[ISS] PC=0x%08llx SP=0x%08llx"`. -/
  | iss_pc_sp (pc sp : Nat)
  /-- Line `"[MAP] 0x... .. 0x... perms=..."`. -/
  | map_region (first last : Nat) (r w x : Bool)
  /-- Line `"[ISS] init done"`. -/
  | init_done
deriving DecidableEq, Repr

/-- The globals of the driver, the engine registers it uses, and the output written so far. -/
structure Iss where
  /-- Global `static volatile int req_addr`. -/
  req_addr : Int
  /-- Global `static volatile int req_wdata`. -/
  req_wdata : Int
  /-- Global `static volatile req_mode_t req_write`. -/
  req_write : req_mode_t
  /-- Global `static volatile unsigned char req_valid`. -/
  req_valid : Nat
  /-- Global `static volatile unsigned char g_halted`. -/
  g_halted : Nat
  /-- Global `static volatile int file_size`. -/
  file_size : Int
  /-- Engine register `UC_RISCV_REG_PC`. -/
  pc : Nat
  /-- Engine register `UC_RISCV_REG_SP`. -/
  sp : Nat
  /-- Number of `uc_emu_stop` calls the engine has received. -/
  emu_stop_calls : Nat
  /-- Lines printed so far, oldest first. -/
  stdout : List Line
deriving DecidableEq, Repr

/-- The globals as the C initialisers leave them at program start. -/
def boot : Iss :=
  { req_addr := 0, req_wdata := 0, req_write := M_IDLE, req_valid := 0, g_halted := 0,
    file_size := 0, pc := 0, sp := 0, emu_stop_calls := 0, stdout := [] }

/-! ## Engine interface -/

/-- Source: `uc_emu_stop(uc)`. -/
def uc_emu_stop (s : Iss) : Iss := { s with emu_stop_calls := s.emu_stop_calls + 1 }

/-- Source: `uc_reg_read(uc, UC_RISCV_REG_PC, &v)` into a zero-initialised `uint64_t`. -/
def uc_reg_read_pc (s : Iss) : Nat := s.pc

/-- Source: `uc_reg_read(uc, UC_RISCV_REG_SP, &v)` into a zero-initialised `uint64_t`. -/
def uc_reg_read_sp (s : Iss) : Nat := s.sp

/-- Source: `uc_reg_write(uc, UC_RISCV_REG_PC, &v)`: the 32-bit register takes the low word. -/
def uc_reg_write_pc (v : Nat) (s : Iss) : Iss := { s with pc := v % 2 ^ 32 }

/-- Source: `uc_reg_write(uc, UC_RISCV_REG_SP, &v)`: the 32-bit register takes the low word. -/
def uc_reg_write_sp (v : Nat) (s : Iss) : Iss := { s with sp := v % 2 ^ 32 }

/-! ## Intercept hooks -/

/-- Source: `hook_mmio_write_unmapped(uc, type, addr, size, value, user)`. -/
def hook_mmio_write_unmapped (addr : Nat) (size value : Int) (s : Iss) : Bool × Iss :=
  let last := GPIO_BASE + GPIO_SIZE - 1
  if addr < GPIO_BASE ∨ addr > last then (false, s)
  else if size ≠ 1 ∧ size ≠ 2 ∧ size ≠ 4 then (false, s)
  else
    let s := { s with req_addr := int_of_u64 addr }
    let s := { s with req_wdata := int_of_i64 value }
    let s := { s with req_write := M_WR }
    let s := { s with req_valid := 1 }
    let s := { s with stdout := s.stdout ++ [Line.tlm_gpio_write (to_unsigned s.req_wdata)] }
    let s := { s with stdout := s.stdout ++ [Line.hook_w addr size (to_unsigned s.req_wdata)] }
    let s := uc_emu_stop s
    (true, s)

/-- Source: `hook_mmio_read_unmapped(uc, type, addr, size, value, user)`. -/
def hook_mmio_read_unmapped (addr : Nat) (size _value : Int) (s : Iss) : Bool × Iss :=
  let last := GPIO_BASE + GPIO_SIZE - 1
  if addr < GPIO_BASE ∨ addr > last then (false, s)
  else if size ≠ 1 ∧ size ≠ 2 ∧ size ≠ 4 then (false, s)
  else
    let s := { s with req_addr := int_of_u64 addr }
    let s := { s with req_write := M_RD }
    let s := { s with req_valid := 1 }
    let s := uc_emu_stop s
    (true, s)

/-- One unmapped access for which the engine calls the matching hook. -/
inductive Access where
  | write (addr : Nat) (size value : Int)
  | read (addr : Nat) (size value : Int)
deriving DecidableEq, Repr

/-- The engine calls the hook installed for the kind of access; the driver state is what
the hook leaves. -/
def deliver (s : Iss) : Access → Iss
  | Access.write addr size value => (hook_mmio_write_unmapped addr size value s).2
  | Access.read addr size value => (hook_mmio_read_unmapped addr size value s).2

/-- What the engine does during one `uc_emu_start`: the accesses it hands to the hooks, in
order, and the values of the two registers when it returns. -/
structure EngineRun where
  accesses : List Access
  pc_end : Nat
  sp_end : Nat
deriving DecidableEq, Repr

/-- Source: `uc_emu_start(uc, begin, 0, 0, 1)` for a given behaviour of the engine. -/
def uc_emu_start (run : EngineRun) (s : Iss) : Iss :=
  let s := run.accesses.foldl deliver s
  { s with pc := run.pc_end % 2 ^ 32, sp := run.sp_end % 2 ^ 32 }

/-! ## DPI functions -/

/-- One entry of the array `uc_mem_regions` returns. -/
structure MemRegion where
  first : Nat
  last : Nat
  perms : Nat
deriving DecidableEq, Repr

/-- The line `dump_maps` prints for a region (`UC_PROT_READ = 1`, `UC_PROT_WRITE = 2`,
`UC_PROT_EXEC = 4`). -/
def map_line (r : MemRegion) : Line :=
  Line.map_region r.first r.last (r.perms.testBit 0) (r.perms.testBit 1) (r.perms.testBit 2)

/-- Source: `dump_maps(uc)`; `regions` is `none` when `uc_mem_regions` reports an error. -/
def dump_maps (regions : Option (List MemRegion)) (s : Iss) : Iss :=
  match regions with
  | some rs => { s with stdout := s.stdout ++ rs.map map_line }
  | none => s

/-- What the outside world answers during `iss_init`. -/
structure InitEnv where
  /-- Error code of `uc_open` (0 is `UC_ERR_OK`). -/
  uc_open_err : Nat
  /-- Error code of `uc_mem_map`. -/
  uc_mem_map_err : Nat
  /-- Length of the firmware file in bytes; `none` when `fopen` fails. -/
  file_len : Option Nat
  /-- Error code of `uc_mem_write`. -/
  uc_mem_write_err : Nat
  /-- Result of `uc_mem_regions`; `none` when it reports an error. -/
  regions : Option (List MemRegion)
deriving DecidableEq, Repr

/-- Source: `load_firmware(path, &size)`: `fread` delivers at most `RAM_SIZE` bytes; `none` is
`exit(1)`. -/
def load_firmware (file_len : Option Nat) (s : Iss) : Option (Nat × Iss) :=
  match file_len with
  | none => none
  | some len =>
    let size := min len RAM_SIZE
    if size = 0 then none
    else some (size, { s with stdout := s.stdout ++ [Line.loaded size RAM_BASE] })

/-- Source: `iss_init(firmware_path)`; `none` is `exit(1)`. -/
def iss_init (env : InitEnv) (s : Iss) : Option Iss :=
  if env.uc_open_err ≠ 0 then none
  else if env.uc_mem_map_err ≠ 0 then none
  else
    match load_firmware env.file_len s with
    | none => none
    | some (sz, s) =>
      let s := { s with file_size := int_of_u64 (u64_sub sz 4) }
      if env.uc_mem_write_err ≠ 0 then none
      else
        let pc := RAM_BASE
        let s := uc_reg_write_pc pc s
        let sp := RAM_BASE + RAM_SIZE - 0x1000
        let s := uc_reg_write_sp sp s
        let pc_rb := uc_reg_read_pc s
        let sp_rb := uc_reg_read_sp s
        let s := { s with stdout := s.stdout ++ [Line.iss_pc_sp pc_rb sp_rb] }
        let s := dump_maps env.regions s
        some { s with stdout := s.stdout ++ [Line.init_done] }

/-- Source: `iss_ack_write_and_advance()`. -/
def iss_ack_write_and_advance (s : Iss) : Iss :=
  let s := { s with req_valid := 0 }
  { s with req_write := M_IDLE }

/-- Source: `iss_step()` for a given behaviour of the engine during its `uc_emu_start`. -/
def iss_step (run : EngineRun) (s : Iss) : Iss :=
  let pc_before := uc_reg_read_pc s
  let s := uc_emu_start run s
  let s := if pc_before = u64_add (to_u64 s.file_size) RAM_BASE then
      { s with g_halted := 1 } else s
  let pc_after := u64_add pc_before 4
  uc_reg_write_pc pc_after s

/-- Source: `iss_halted()`. -/
def iss_halted (s : Iss) : Nat := if s.g_halted ≠ 0 then 1 else 0

/-- Source: `iss_get_req(&addr, &wdata, &write)`: the three values stored through the pointers. -/
def iss_get_req (s : Iss) : Int × Int × Nat :=
  (s.req_addr, s.req_wdata, to_uchar s.req_write.toNat)

/-- Source: `iss_set_read_data(rdata)`. -/
def iss_set_read_data (rdata : Int) (s : Iss) : Iss :=
  let s := { s with req_write := M_IDLE }
  let s := { s with req_valid := 0 }
  { s with stdout := s.stdout ++ [Line.tlm_gpio_read (to_unsigned rdata)] }

/-- Successive calls of `iss_step`, one engine behaviour per call. -/
def iss_steps : List EngineRun → Iss → Iss
  | [], s => s
  | run :: runs, s => iss_steps runs (iss_step run s)

/-- A sequence of calls into the driver: the two hooks (called by the engine), the DPI
functions (called by the test bench). -/
inductive Call where
  | write_hook (addr : Nat) (size value : Int)
  | read_hook (addr : Nat) (size value : Int)
  | ack_write_and_advance
  | set_read_data (rdata : Int)
  | get_req
  | step (run : EngineRun)
  | halted
deriving DecidableEq, Repr

/-- The state a call leaves. -/
def Call.apply (s : Iss) : Call → Iss
  | Call.write_hook addr size value => (hook_mmio_write_unmapped addr size value s).2
  | Call.read_hook addr size value => (hook_mmio_read_unmapped addr size value s).2
  | Call.ack_write_and_advance => iss_ack_write_and_advance s
  | Call.set_read_data rdata => iss_set_read_data rdata s
  | Call.get_req => s
  | Call.step run => iss_step run s
  | Call.halted => s

/-- The state a sequence of calls leaves. -/
def run_calls (calls : List Call) (s : Iss) : Iss := calls.foldl Call.apply s

/-- The number of `iss_step` calls in a sequence of calls. -/
def step_count : List Call → Nat
  | [] => 0
  | Call.step _ :: calls => step_count calls + 1
  | _ :: calls => step_count calls

/-- The state without the output written so far: the globals and the engine. -/
def machine (s : Iss) : Iss := { s with stdout := [] }

/-- An access both hooks accept: inside the window, of width 1, 2 or 4. -/
def accepted (addr : Nat) (size : Int) : Prop :=
  (GPIO_BASE ≤ addr ∧ addr ≤ GPIO_BASE + GPIO_SIZE - 1) ∧ (size = 1 ∨ size = 2 ∨ size = 4)

instance (addr : Nat) (size : Int) : Decidable (accepted addr size) :=
  inferInstanceAs (Decidable
    ((GPIO_BASE ≤ addr ∧ addr ≤ GPIO_BASE + GPIO_SIZE - 1) ∧ (size = 1 ∨ size = 2 ∨ size = 4)))

/-- The access is one the hook it is delivered to accepts. -/
def Access.accepted : Access → Prop
  | Access.write addr size _ => IssDriver.accepted addr size
  | Access.read addr size _ => IssDriver.accepted addr size

instance (a : Access) : Decidable a.accepted :=
  match a with
  | Access.write addr size _ => inferInstanceAs (Decidable (IssDriver.accepted addr size))
  | Access.read addr size _ => inferInstanceAs (Decidable (IssDriver.accepted addr size))

/-! ## Two sessions used for examples

A 16-byte image is loaded without errors. In the first session it is
`lui t0, 0x10000; li t1, 1; sw t1, 0(t0); ebreak`, in the second
`lui t0, 0x10000; lw t1, 0(t0); sw t1, 4(t0); ebreak`. -/

/-- The answers of the outside world for a 16-byte image and an engine without errors. -/
def fw16_env : InitEnv :=
  { uc_open_err := 0, uc_mem_map_err := 0, file_len := some 16, uc_mem_write_err := 0,
    regions := some [{ first := RAM_BASE, last := RAM_BASE + RAM_SIZE - 1, perms := 7 }] }

/-- The state `iss_init` leaves for `fw16_env`. -/
def fw16_start : Iss := (iss_init fw16_env boot).getD boot

/-- The engine executes an instruction that touches no unmapped address. -/
def plain_run (s : Iss) : EngineRun :=
  { accesses := [], pc_end := s.pc + 4, sp_end := s.sp }

/-- The engine stops at the instruction without executing it (a breakpoint, an illegal
instruction). -/
def fault_run (s : Iss) : EngineRun :=
  { accesses := [], pc_end := s.pc, sp_end := s.sp }

/-- The engine executes a 4-byte store of `value` to `addr`: the write hook is called once
and the engine stops with the registers as they were. -/
def store_run (addr : Nat) (value : Int) (s : Iss) : EngineRun :=
  { accesses := [Access.write addr 4 value], pc_end := s.pc, sp_end := s.sp }

/-- The engine executes a 4-byte load from `addr`: the read hook is called once and the
engine stops with the registers as they were. -/
def load_run (addr : Nat) (s : Iss) : EngineRun :=
  { accesses := [Access.read addr 4 0], pc_end := s.pc, sp_end := s.sp }

/-- Both sessions after the step for `lui`. -/
def after_lui : Iss := iss_step (plain_run fw16_start) fw16_start

/-- The first session after the step for `li`: the store is next. -/
def before_store : Iss := iss_step (plain_run after_lui) after_lui

/-- The first session after the step for `sw`, which stalls on the store of 1 to the first
GPIO word. -/
def stalled_on_write : Iss := iss_step (store_run GPIO_BASE 1 before_store) before_store

/-- The second session after the step for `lw`, which stalls on the load from the first
GPIO word. -/
def stalled_on_read : Iss := iss_step (load_run GPIO_BASE after_lui) after_lui

/-- The first session after the write has been acknowledged: the program counter is at the
completion address. -/
def at_completion : Iss := iss_ack_write_and_advance stalled_on_write

/-- The first session after the step at the completion address. -/
def after_completion : Iss := iss_step (fault_run at_completion) at_completion

/-- The mode and the valid flag agree. -/
def req_consistent (s : Iss) : Prop := s.req_valid = 1 ↔ s.req_write ≠ M_IDLE

/-! ## Conversions -/

set_option maxRecDepth 16384

theorem int_of_u64_of_lt (n : Nat) (h : n < 2 ^ 31) : int_of_u64 n = n := by
  unfold int_of_u64
  split <;> omega

theorem int_of_u64_eq_int_of_i64 (n : Nat) : int_of_u64 n = int_of_i64 (n : Int) := by
  unfold int_of_u64 int_of_i64
  split <;> omega

theorem u64_add_eq (a b : Nat) : u64_add a b = (a + b) % 2 ^ 64 := by
  unfold u64_add
  rw [Nat.add_comm]

theorem int_of_i64_range (x : Int) : -2 ^ 31 ≤ int_of_i64 x ∧ int_of_i64 x < 2 ^ 31 := by
  unfold int_of_i64; omega

theorem to_unsigned_int_of_i64 (x : Int) :
    to_unsigned (int_of_i64 x) = (x % 2 ^ 32).toNat := by
  unfold to_unsigned int_of_i64; omega

theorem to_u64_of_lt (n : Nat) (h : n < 2 ^ 64) : to_u64 (n : Int) = n := by
  unfold to_u64; omega

theorem u64_add_of_lt (a b : Nat) (h : a + b < 2 ^ 64) : u64_add a b = a + b := by
  unfold u64_add; omega

theorem u64_sub_of_le (a b : Nat) (hb : b ≤ a) (ha : a < 2 ^ 64) : u64_sub a b = a - b := by
  unfold u64_sub; omega

/-! ## The hooks -/

theorem hook_write_accept (s : Iss) (addr : Nat) (size value : Int)
    (h : accepted addr size) :
    hook_mmio_write_unmapped addr size value s =
      (true, { s with req_addr := int_of_u64 addr, req_wdata := int_of_i64 value, req_write := M_WR,
                      req_valid := 1,
                      stdout := s.stdout ++ [Line.tlm_gpio_write (to_unsigned (int_of_i64 value))]
                        ++ [Line.hook_w addr size (to_unsigned (int_of_i64 value))],
                      emu_stop_calls := s.emu_stop_calls + 1 }) := by
  obtain ⟨⟨h1, h2⟩, h3⟩ := h
  have ha : ¬ (addr < GPIO_BASE ∨ addr > GPIO_BASE + GPIO_SIZE - 1) := by omega
  have hs : ¬ (size ≠ 1 ∧ size ≠ 2 ∧ size ≠ 4) := by omega
  simp only [hook_mmio_write_unmapped, ha, hs, if_false, uc_emu_stop]

theorem hook_read_accept (s : Iss) (addr : Nat) (size value : Int)
    (h : accepted addr size) :
    hook_mmio_read_unmapped addr size value s =
      (true, { s with req_addr := int_of_u64 addr, req_write := M_RD, req_valid := 1,
                      emu_stop_calls := s.emu_stop_calls + 1 }) := by
  obtain ⟨⟨h1, h2⟩, h3⟩ := h
  have ha : ¬ (addr < GPIO_BASE ∨ addr > GPIO_BASE + GPIO_SIZE - 1) := by omega
  have hs : ¬ (size ≠ 1 ∧ size ≠ 2 ∧ size ≠ 4) := by omega
  simp only [hook_mmio_read_unmapped, ha, hs, if_false, uc_emu_stop]

theorem hook_write_decline (s : Iss) (addr : Nat) (size value : Int)
    (h : ¬ accepted addr size) :
    hook_mmio_write_unmapped addr size value s = (false, s) := by
  unfold accepted at h
  unfold hook_mmio_write_unmapped
  by_cases ha : addr < GPIO_BASE ∨ addr > GPIO_BASE + GPIO_SIZE - 1
  · simp only [ha, if_true]
  · have hs : size ≠ 1 ∧ size ≠ 2 ∧ size ≠ 4 := by omega
    simp only [ha, hs, if_false, if_true, and_self, ne_eq, not_false_eq_true]

theorem hook_read_decline (s : Iss) (addr : Nat) (size value : Int)
    (h : ¬ accepted addr size) :
    hook_mmio_read_unmapped addr size value s = (false, s) := by
  unfold accepted at h
  unfold hook_mmio_read_unmapped
  by_cases ha : addr < GPIO_BASE ∨ addr > GPIO_BASE + GPIO_SIZE - 1
  · simp only [ha, if_true]
  · have hs : size ≠ 1 ∧ size ≠ 2 ∧ size ≠ 4 := by omega
    simp only [ha, hs, if_false, if_true, and_self, ne_eq, not_false_eq_true]

/-! ## What an engine run can change -/

theorem deliver_frame (s : Iss) (a : Access) :
    (deliver s a).g_halted = s.g_halted ∧ (deliver s a).file_size = s.file_size := by
  cases a with
  | write addr size value =>
    by_cases h : accepted addr size
    · simp [deliver, hook_write_accept s addr size value h]
    · simp [deliver, hook_write_decline s addr size value h]
  | read addr size value =>
    by_cases h : accepted addr size
    · simp [deliver, hook_read_accept s addr size value h]
    · simp [deliver, hook_read_decline s addr size value h]

theorem deliver_declined (s : Iss) (a : Access) (h : ¬ a.accepted) : deliver s a = s := by
  cases a with
  | write addr size value => simp [deliver, hook_write_decline s addr size value h]
  | read addr size value => simp [deliver, hook_read_decline s addr size value h]

theorem deliver_consistent (s : Iss) (a : Access) (h : req_consistent s) :
    req_consistent (deliver s a) := by
  cases a with
  | write addr size value =>
    by_cases hacc : accepted addr size
    · simp [deliver, hook_write_accept s addr size value hacc, req_consistent]
    · simpa [deliver, hook_write_decline s addr size value hacc] using h
  | read addr size value =>
    by_cases hacc : accepted addr size
    · simp [deliver, hook_read_accept s addr size value hacc, req_consistent]
    · simpa [deliver, hook_read_decline s addr size value hacc] using h

theorem foldl_deliver_frame (l : List Access) (s : Iss) :
    (l.foldl deliver s).g_halted = s.g_halted ∧ (l.foldl deliver s).file_size = s.file_size := by
  induction l generalizing s with
  | nil => exact ⟨rfl, rfl⟩
  | cons a l ih =>
    rw [List.foldl_cons]
    exact ⟨(ih (deliver s a)).1.trans (deliver_frame s a).1,
           (ih (deliver s a)).2.trans (deliver_frame s a).2⟩

theorem foldl_deliver_declined (l : List Access) (s : Iss) (h : ∀ a ∈ l, ¬ a.accepted) :
    l.foldl deliver s = s := by
  induction l generalizing s with
  | nil => rfl
  | cons a l ih =>
    rw [List.foldl_cons, deliver_declined s a (h a (List.mem_cons_self a l))]
    exact ih s (fun b hb => h b (List.mem_cons_of_mem a hb))

theorem foldl_deliver_consistent (l : List Access) (s : Iss) (h : req_consistent s) :
    req_consistent (l.foldl deliver s) := by
  induction l generalizing s with
  | nil => exact h
  | cons a l ih =>
    rw [List.foldl_cons]
    exact ih (deliver s a) (deliver_consistent s a h)

/-! ## One step -/

theorem u64_add_four_low (n : Nat) : u64_add n 4 % 2 ^ 32 = (n + 4) % 2 ^ 32 := by
  unfold u64_add; omega

theorem iss_step_pc (run : EngineRun) (s : Iss) : (iss_step run s).pc = (s.pc + 4) % 2 ^ 32 := by
  rw [← u64_add_four_low]
  unfold iss_step uc_reg_write_pc uc_reg_read_pc
  rfl

theorem iss_step_file_size (run : EngineRun) (s : Iss) :
    (iss_step run s).file_size = s.file_size := by
  unfold iss_step uc_reg_write_pc uc_reg_read_pc uc_emu_start
  simp only []
  split <;> exact (foldl_deliver_frame run.accesses s).2

theorem iss_step_g_halted (run : EngineRun) (s : Iss) :
    (iss_step run s).g_halted =
      if s.pc = u64_add (to_u64 s.file_size) RAM_BASE then 1 else s.g_halted := by
  unfold iss_step uc_reg_write_pc uc_reg_read_pc uc_emu_start
  simp only [(foldl_deliver_frame run.accesses s).2]
  split
  · rfl
  · exact (foldl_deliver_frame run.accesses s).1

theorem iss_step_request (run : EngineRun) (s : Iss) :
    (iss_step run s).req_addr = (run.accesses.foldl deliver s).req_addr ∧
    (iss_step run s).req_wdata = (run.accesses.foldl deliver s).req_wdata ∧
    (iss_step run s).req_write = (run.accesses.foldl deliver s).req_write ∧
    (iss_step run s).req_valid = (run.accesses.foldl deliver s).req_valid := by
  unfold iss_step uc_reg_write_pc uc_reg_read_pc uc_emu_start
  simp only []
  split <;> exact ⟨rfl, rfl, rfl, rfl⟩

theorem iss_steps_pc (runs : List EngineRun) (run : EngineRun) (s : Iss) :
    (iss_steps runs (iss_step run s)).pc = (s.pc + 4 + 4 * runs.length) % 2 ^ 32 := by
  induction runs generalizing run s with
  | nil => simpa [iss_steps] using iss_step_pc run s
  | cons r rs ih =>
    rw [iss_steps, ih r (iss_step run s), iss_step_pc run s, List.length_cons]
    omega

theorem iss_steps_append (xs ys : List EngineRun) (s : Iss) :
    iss_steps (xs ++ ys) s = iss_steps ys (iss_steps xs s) := by
  induction xs generalizing s with
  | nil => rfl
  | cons x xs ih => exact ih (iss_step x s)

theorem deliver_pc (s : Iss) (a : Access) : (deliver s a).pc = s.pc := by
  cases a with
  | write addr size value =>
    by_cases h : accepted addr size
    · simp [deliver, hook_write_accept s addr size value h]
    · simp [deliver, hook_write_decline s addr size value h]
  | read addr size value =>
    by_cases h : accepted addr size
    · simp [deliver, hook_read_accept s addr size value h]
    · simp [deliver, hook_read_decline s addr size value h]

theorem run_calls_pc (calls : List Call) (s : Iss) (p : Nat) (h : s.pc = p % 2 ^ 32) :
    (run_calls calls s).pc = (p + 4 * step_count calls) % 2 ^ 32 := by
  induction calls generalizing s p with
  | nil => simpa [run_calls, step_count] using h
  | cons c cs ih =>
    have hcons : run_calls (c :: cs) s = run_calls cs (c.apply s) := rfl
    rw [hcons]
    cases c with
    | write_hook addr size value =>
      have hp : (Call.apply s (Call.write_hook addr size value)).pc = p % 2 ^ 32 :=
        (deliver_pc s (Access.write addr size value)).trans h
      simpa [step_count] using ih _ p hp
    | read_hook addr size value =>
      have hp : (Call.apply s (Call.read_hook addr size value)).pc = p % 2 ^ 32 :=
        (deliver_pc s (Access.read addr size value)).trans h
      simpa [step_count] using ih _ p hp
    | ack_write_and_advance =>
      have hp : (Call.apply s Call.ack_write_and_advance).pc = p % 2 ^ 32 := h
      simpa [step_count] using ih _ p hp
    | set_read_data rdata =>
      have hp : (Call.apply s (Call.set_read_data rdata)).pc = p % 2 ^ 32 := h
      simpa [step_count] using ih _ p hp
    | get_req =>
      have hp : (Call.apply s Call.get_req).pc = p % 2 ^ 32 := h
      simpa [step_count] using ih _ p hp
    | halted =>
      have hp : (Call.apply s Call.halted).pc = p % 2 ^ 32 := h
      simpa [step_count] using ih _ p hp
    | step run =>
      have hp : (Call.apply s (Call.step run)).pc = (p + 4) % 2 ^ 32 := by
        show (iss_step run s).pc = (p + 4) % 2 ^ 32
        rw [iss_step_pc, h]
        omega
      rw [ih _ (p + 4) hp]
      show (p + 4 + 4 * step_count cs) % 2 ^ 32 = (p + 4 * (step_count cs + 1)) % 2 ^ 32
      congr 1
      omega

/-! ## Accepted and declined accesses -/

/-- C1: for every address inside the peripheral window (`GPIO_BASE ≤ addr ≤ GPIO_BASE +
GPIO_SIZE - 1`), every size in {1, 2, 4} and every value, `hook_mmio_write_unmapped` returns
true, calls `uc_emu_stop` once, and leaves `req_addr = addr` (the cast to `int` loses
nothing), `req_wdata` = the `int` whose 32 bits are the low 32 bits of `value`,
`req_write = M_WR` and `req_valid = 1`; `iss_get_req` then reports that address, that
write-data and the write mode (2). -/
theorem hook_mmio_write_unmapped_records_request (s : Iss) (addr : Nat) (size value : Int)
    (hlo : GPIO_BASE ≤ addr) (hhi : addr ≤ GPIO_BASE + GPIO_SIZE - 1)
    (hsize : size = 1 ∨ size = 2 ∨ size = 4) :
    (hook_mmio_write_unmapped addr size value s).1 = true ∧
    (hook_mmio_write_unmapped addr size value s).2.emu_stop_calls = s.emu_stop_calls + 1 ∧
    (hook_mmio_write_unmapped addr size value s).2.req_addr = (addr : Int) ∧
    (hook_mmio_write_unmapped addr size value s).2.req_wdata = int_of_i64 value ∧
    to_unsigned (hook_mmio_write_unmapped addr size value s).2.req_wdata
      = (value % 2 ^ 32).toNat ∧
    (hook_mmio_write_unmapped addr size value s).2.req_write = M_WR ∧
    (hook_mmio_write_unmapped addr size value s).2.req_valid = 1 ∧
    iss_get_req (hook_mmio_write_unmapped addr size value s).2
      = ((addr : Int), int_of_i64 value, M_WR.toNat) := by
  have hacc : accepted addr size := ⟨⟨hlo, hhi⟩, hsize⟩
  have haddr : int_of_u64 addr = addr := by
    apply int_of_u64_of_lt
    unfold GPIO_BASE GPIO_SIZE at hhi
    omega
  rw [hook_write_accept s addr size value hacc]
  simp only [iss_get_req, haddr, to_unsigned_int_of_i64, to_uchar, req_mode_t.toNat]
  simp

/-- C1, at the last byte of the window, with a value wider than 32 bits. -/
theorem hook_mmio_write_unmapped_records_request_witness :
    (GPIO_BASE ≤ 0x10000FFF ∧ 0x10000FFF ≤ GPIO_BASE + GPIO_SIZE - 1) ∧
    (hook_mmio_write_unmapped 0x10000FFF 2 0x10000002A boot).1 = true ∧
    iss_get_req (hook_mmio_write_unmapped 0x10000FFF 2 0x10000002A boot).2
      = (0x10000FFF, 0x2A, 2) := by
  have h := hook_mmio_write_unmapped_records_request boot 0x10000FFF 2 0x10000002A
    (by decide) (by decide) (by decide)
  refine ⟨by decide, h.1, ?_⟩
  rw [h.2.2.2.2.2.2.2]
  decide

/-- C2: for every address inside the peripheral window and every size in {1, 2, 4},
`hook_mmio_read_unmapped` returns true, calls `uc_emu_stop` once, and leaves
`req_addr = addr`, `req_write = M_RD` and `req_valid = 1`. -/
theorem hook_mmio_read_unmapped_records_request (s : Iss) (addr : Nat) (size value : Int)
    (hlo : GPIO_BASE ≤ addr) (hhi : addr ≤ GPIO_BASE + GPIO_SIZE - 1)
    (hsize : size = 1 ∨ size = 2 ∨ size = 4) :
    (hook_mmio_read_unmapped addr size value s).1 = true ∧
    (hook_mmio_read_unmapped addr size value s).2.emu_stop_calls = s.emu_stop_calls + 1 ∧
    (hook_mmio_read_unmapped addr size value s).2.req_addr = (addr : Int) ∧
    (hook_mmio_read_unmapped addr size value s).2.req_write = M_RD ∧
    (hook_mmio_read_unmapped addr size value s).2.req_valid = 1 := by
  have hacc : accepted addr size := ⟨⟨hlo, hhi⟩, hsize⟩
  have haddr : int_of_u64 addr = addr := by
    apply int_of_u64_of_lt
    unfold GPIO_BASE GPIO_SIZE at hhi
    omega
  rw [hook_read_accept s addr size value hacc]
  simp [haddr]

/-- C2, at the first byte of the window with a 1-byte access. -/
theorem hook_mmio_read_unmapped_records_request_witness :
    (GPIO_BASE ≤ 0x10000000 ∧ 0x10000000 ≤ GPIO_BASE + GPIO_SIZE - 1) ∧
    (hook_mmio_read_unmapped 0x10000000 1 0 boot).1 = true ∧
    (hook_mmio_read_unmapped 0x10000000 1 0 boot).2.req_addr = 0x10000000 ∧
    (hook_mmio_read_unmapped 0x10000000 1 0 boot).2.req_write = M_RD ∧
    (hook_mmio_read_unmapped 0x10000000 1 0 boot).2.req_valid = 1 := by
  have h := hook_mmio_read_unmapped_records_request boot 0x10000000 1 0
    (by decide) (by decide) (by decide)
  exact ⟨by decide, h.1, h.2.2.1, h.2.2.2.1, h.2.2.2.2⟩

/-- C3: for every access whose address is outside the peripheral window or whose size is
not 1, 2 or 4, both hooks return false and leave the whole state as it was: no
`uc_emu_stop`, and `req_addr`, `req_wdata`, `req_write`, `req_valid` unchanged. -/
theorem hooks_decline_outside_window_or_width (s : Iss) (addr : Nat) (size value : Int)
    (h : (addr < GPIO_BASE ∨ addr > GPIO_BASE + GPIO_SIZE - 1) ∨
         (size ≠ 1 ∧ size ≠ 2 ∧ size ≠ 4)) :
    hook_mmio_write_unmapped addr size value s = (false, s) ∧
    hook_mmio_read_unmapped addr size value s = (false, s) := by
  have hacc : ¬ accepted addr size := by
    unfold accepted
    omega
  exact ⟨hook_write_decline s addr size value hacc, hook_read_decline s addr size value hacc⟩

/-- C3, for a 4-byte access just past the window while a write is pending. -/
theorem hooks_decline_outside_window_or_width_witness :
    0x10001000 > GPIO_BASE + GPIO_SIZE - 1 ∧
    hook_mmio_write_unmapped 0x10001000 4 7 stalled_on_write = (false, stalled_on_write) ∧
    hook_mmio_read_unmapped 0x10001000 4 7 stalled_on_write = (false, stalled_on_write) :=
  ⟨by decide,
   hooks_decline_outside_window_or_width stalled_on_write 0x10001000 4 7
     (Or.inl (Or.inr (by decide)))⟩

/-! ## Clearing a request -/

/-- C10: for every state, `iss_ack_write_and_advance` and `iss_set_read_data v` set
`req_write = M_IDLE` and `req_valid = 0` and leave `req_addr`, `req_wdata`, `g_halted`, the
program counter (and `file_size`, the stack pointer and the `uc_emu_stop` count) as they
were; the first prints nothing, the second prints one line. -/
theorem ack_and_set_read_data_only_clear_request (s : Iss) (v : Int) :
    iss_ack_write_and_advance s = { s with req_write := M_IDLE, req_valid := 0 } ∧
    iss_set_read_data v s =
      { s with req_write := M_IDLE, req_valid := 0,
               stdout := s.stdout ++ [Line.tlm_gpio_read (to_unsigned v)] } ∧
    ((iss_ack_write_and_advance s).req_addr = s.req_addr ∧
     (iss_ack_write_and_advance s).req_wdata = s.req_wdata ∧
     (iss_ack_write_and_advance s).g_halted = s.g_halted ∧
     (iss_ack_write_and_advance s).pc = s.pc) ∧
    ((iss_set_read_data v s).req_addr = s.req_addr ∧
     (iss_set_read_data v s).req_wdata = s.req_wdata ∧
     (iss_set_read_data v s).g_halted = s.g_halted ∧
     (iss_set_read_data v s).pc = s.pc) := by
  simp [iss_ack_write_and_advance, iss_set_read_data]

/-- C5 (fails on the code): with a read pending, `iss_set_read_data 0x2A` and
`iss_set_read_data 0` leave the same globals and the same engine state; the value reaches
only the printed line. -/
theorem iss_set_read_data_drops_value :
    stalled_on_read.req_write = M_RD ∧ stalled_on_read.req_valid = 1 ∧
    machine (iss_set_read_data 0x2A stalled_on_read)
      = machine (iss_set_read_data 0 stalled_on_read) ∧
    (iss_set_read_data 0x2A stalled_on_read).stdout
      = stalled_on_read.stdout ++ [Line.tlm_gpio_read 0x2A] := by
  decide

/-! ## A second access while a request is pending -/

/-- C6 as stated fails: in the first session a write is pending (address `0x10000000`,
data 1); an accepted
write of 2 to `0x10000004` is handled (the hook returns true) and `iss_get_req` then
reports the second access, not the first; an accepted read does the same to address and
mode. -/
theorem pending_request_overwritten :
    (stalled_on_write.req_valid = 1 ∧ stalled_on_write.req_write = M_WR) ∧
    iss_get_req stalled_on_write = (0x10000000, 1, 2) ∧
    accepted 0x10000004 4 ∧
    (hook_mmio_write_unmapped 0x10000004 4 2 stalled_on_write).1 = true ∧
    iss_get_req (hook_mmio_write_unmapped 0x10000004 4 2 stalled_on_write).2
      = (0x10000004, 2, 2) ∧
    (hook_mmio_read_unmapped 0x10000004 4 0 stalled_on_write).1 = true ∧
    iss_get_req (hook_mmio_read_unmapped 0x10000004 4 0 stalled_on_write).2
      = (0x10000004, 1, 1) := by
  decide

/-- C6 amended: in every state, also one with a request pending (`req_valid = 1`,
`req_write` not `M_IDLE`), an accepted access delivered to a hook is handled like any other
and replaces the recorded request: the write hook returns true and `iss_get_req` reports
the new address, the new write-data and `M_WR`; the read hook returns true and
`iss_get_req` reports the new address, the write-data recorded before and `M_RD`. -/
theorem accepted_access_replaces_pending_request (s : Iss) (addr : Nat) (size value : Int)
    (hlo : GPIO_BASE ≤ addr) (hhi : addr ≤ GPIO_BASE + GPIO_SIZE - 1)
    (hsize : size = 1 ∨ size = 2 ∨ size = 4) :
    ((hook_mmio_write_unmapped addr size value s).1 = true ∧
     iss_get_req (hook_mmio_write_unmapped addr size value s).2
       = ((addr : Int), int_of_i64 value, M_WR.toNat)) ∧
    ((hook_mmio_read_unmapped addr size value s).1 = true ∧
     iss_get_req (hook_mmio_read_unmapped addr size value s).2
       = ((addr : Int), s.req_wdata, M_RD.toNat)) := by
  have hacc : accepted addr size := ⟨⟨hlo, hhi⟩, hsize⟩
  have haddr : int_of_u64 addr = addr := by
    apply int_of_u64_of_lt
    unfold GPIO_BASE GPIO_SIZE at hhi
    omega
  rw [hook_write_accept s addr size value hacc, hook_read_accept s addr size value hacc]
  simp [iss_get_req, haddr, to_uchar, req_mode_t.toNat]

/-- C6 amended, for a read of `0x10000008` arriving while the write of 1 is pending. -/
theorem accepted_access_replaces_pending_request_witness :
    (stalled_on_write.req_valid = 1 ∧ stalled_on_write.req_write ≠ M_IDLE) ∧
    iss_get_req (hook_mmio_read_unmapped 0x10000008 4 0 stalled_on_write).2
      = (0x10000008, 1, 1) := by
  have h := accepted_access_replaces_pending_request stalled_on_write 0x10000008 4 0
    (by decide) (by decide) (by decide)
  refine ⟨by decide, ?_⟩
  rw [h.2.2]
  decide

/-! ## Stepping -/

/-- C4 as stated fails: the third step of the first session starts at `RAM_BASE + 8` with
no request pending, the store by the engine raises a pending write (`req_valid` becomes 1),
and when `iss_step` returns the program counter is `RAM_BASE + 12`; a further step without
an acknowledgement moves it to `RAM_BASE + 16` while the request is still pending. -/
theorem stalled_step_advances_pc :
    before_store.pc = RAM_BASE + 8 ∧ before_store.req_valid = 0 ∧
    (uc_emu_start (store_run GPIO_BASE 1 before_store) before_store).req_valid = 1 ∧
    stalled_on_write.req_valid = 1 ∧
    stalled_on_write.pc = RAM_BASE + 12 ∧
    stalled_on_write.pc ≠ before_store.pc ∧
    (iss_step (fault_run stalled_on_write) stalled_on_write).req_valid = 1 ∧
    (iss_step (fault_run stalled_on_write) stalled_on_write).pc = RAM_BASE + 16 := by
  decide

/-- C4 amended: a step that stalls advances the program counter like any other step. For
every state and every engine run that raises a pending request (`req_valid` becomes 1),
the request is still pending when `iss_step` returns and the program counter is the one
before the step plus 4 (in the 32-bit register). It is not frozen afterwards: whatever
calls follow (hooks, `iss_ack_write_and_advance`, `iss_set_read_data`, `iss_get_req`,
`iss_halted`, `iss_step` with any engine behaviour), the program counter is 4 further for
each `iss_step` among them, whether or not the request has been resolved in between; and
in every state, stalled or not, one `iss_step` adds 4. -/
theorem iss_step_advances_pc_when_stalled (s : Iss) (run : EngineRun)
    (hstall : (uc_emu_start run s).req_valid = 1) :
    (iss_step run s).req_valid = 1 ∧
    (iss_step run s).pc = (s.pc + 4) % 2 ^ 32 ∧
    (∀ later : List Call,
      (run_calls later (iss_step run s)).pc = (s.pc + 4 + 4 * step_count later) % 2 ^ 32) ∧
    (∀ (t : Iss) (r : EngineRun), (iss_step r t).pc = (t.pc + 4) % 2 ^ 32) := by
  refine ⟨?_, iss_step_pc run s, ?_, fun t r => iss_step_pc r t⟩
  · rw [(iss_step_request run s).2.2.2]
    exact hstall
  · intro later
    exact run_calls_pc later (iss_step run s) (s.pc + 4) (iss_step_pc run s)

/-- C4 amended, for the store that stalls the third step of the first session: one more
step without an acknowledgement, and one more step after the acknowledgement, both move
the program counter from `RAM_BASE + 12` to `RAM_BASE + 16`. -/
theorem iss_step_advances_pc_when_stalled_witness :
    (uc_emu_start (store_run GPIO_BASE 1 before_store) before_store).req_valid = 1 ∧
    (iss_step (store_run GPIO_BASE 1 before_store) before_store).req_valid = 1 ∧
    (iss_step (store_run GPIO_BASE 1 before_store) before_store).pc = 0x8000000C ∧
    (run_calls [Call.step (fault_run stalled_on_write)]
      (iss_step (store_run GPIO_BASE 1 before_store) before_store)).pc = 0x80000010 ∧
    (run_calls [Call.get_req, Call.ack_write_and_advance, Call.step (fault_run at_completion)]
      (iss_step (store_run GPIO_BASE 1 before_store) before_store)).pc = 0x80000010 := by
  have h := iss_step_advances_pc_when_stalled before_store (store_run GPIO_BASE 1 before_store)
    (by decide)
  refine ⟨by decide, h.1, ?_, ?_, ?_⟩
  · rw [h.2.1]; decide
  · rw [h.2.2.1]; decide
  · rw [h.2.2.1]; decide

/-- C8 as stated fails: in the halted state of the first session (`g_halted = 1`, program
counter `RAM_BASE + 16`) a further `iss_step` moves the program counter to
`RAM_BASE + 20`. The step that starts at the completion address `RAM_BASE + 12` sets
`g_halted` and moves the program counter to `RAM_BASE + 16`. -/
theorem halted_step_not_noop :
    (after_completion.g_halted = 1 ∧ after_completion.pc = RAM_BASE + 16) ∧
    (iss_step (fault_run after_completion) after_completion).pc = RAM_BASE + 20 ∧
    (iss_step (fault_run after_completion) after_completion).pc ≠ after_completion.pc ∧
    (at_completion.g_halted = 0 ∧ at_completion.pc = RAM_BASE + 12 ∧
     at_completion.pc = u64_add (to_u64 at_completion.file_size) RAM_BASE) ∧
    (iss_step (fault_run at_completion) at_completion).g_halted = 1 ∧
    (iss_step (fault_run at_completion) at_completion).pc = RAM_BASE + 16 ∧
    (iss_step (fault_run at_completion) at_completion).pc ≠ at_completion.pc := by
  decide

/-- C8 amended: once halted, `iss_step` keeps `g_halted = 1`, but it is not a no-op: it
runs the engine for one instruction, the pending request is what the hooks called during
that run leave (unchanged when the run delivers no accepted access), and the program
counter becomes the one before the step plus 4 (in the 32-bit register). The step that
starts at the completion address sets `g_halted` and advances the program counter by 4
like any other step. -/
theorem iss_step_when_halted (s : Iss) (run : EngineRun) (hhalt : s.g_halted = 1) :
    (iss_step run s).g_halted = 1 ∧
    (iss_step run s).pc = (s.pc + 4) % 2 ^ 32 ∧
    ((iss_step run s).req_addr = (run.accesses.foldl deliver s).req_addr ∧
     (iss_step run s).req_wdata = (run.accesses.foldl deliver s).req_wdata ∧
     (iss_step run s).req_write = (run.accesses.foldl deliver s).req_write ∧
     (iss_step run s).req_valid = (run.accesses.foldl deliver s).req_valid) ∧
    ((∀ a ∈ run.accesses, ¬ a.accepted) →
      (iss_step run s).req_addr = s.req_addr ∧ (iss_step run s).req_wdata = s.req_wdata ∧
      (iss_step run s).req_write = s.req_write ∧ (iss_step run s).req_valid = s.req_valid) ∧
    (∀ (t : Iss) (r : EngineRun), t.pc = u64_add (to_u64 t.file_size) RAM_BASE →
      (iss_step r t).g_halted = 1 ∧ (iss_step r t).pc = (t.pc + 4) % 2 ^ 32) := by
  refine ⟨?_, iss_step_pc run s, iss_step_request run s, ?_, ?_⟩
  · rw [iss_step_g_halted, hhalt]
    split <;> rfl
  · intro hdecl
    have h := iss_step_request run s
    rw [foldl_deliver_declined run.accesses s hdecl] at h
    exact h
  · intro t r ht
    refine ⟨?_, iss_step_pc r t⟩
    rw [iss_step_g_halted, if_pos ht]

/-- C8 amended, for a step taken in the halted state of the first session. -/
theorem iss_step_when_halted_witness :
    after_completion.g_halted = 1 ∧
    (iss_step (fault_run after_completion) after_completion).g_halted = 1 ∧
    (iss_step (fault_run after_completion) after_completion).pc = 0x80000014 := by
  have h := iss_step_when_halted after_completion (fault_run after_completion) (by decide)
  refine ⟨by decide, h.1, ?_⟩
  rw [h.2.1]; decide

/-! ## Mode and valid flag -/

theorem iss_step_consistent (run : EngineRun) (s : Iss) (h : req_consistent s) :
    req_consistent (iss_step run s) := by
  have hf := foldl_deliver_consistent run.accesses s h
  unfold req_consistent at hf ⊢
  rw [(iss_step_request run s).2.2.1, (iss_step_request run s).2.2.2]
  exact hf

theorem apply_consistent (s : Iss) (c : Call) (h : req_consistent s) :
    req_consistent (c.apply s) := by
  cases c with
  | write_hook addr size value => exact deliver_consistent s (Access.write addr size value) h
  | read_hook addr size value => exact deliver_consistent s (Access.read addr size value) h
  | ack_write_and_advance => simp [Call.apply, iss_ack_write_and_advance, req_consistent]
  | set_read_data rdata => simp [Call.apply, iss_set_read_data, req_consistent]
  | get_req => exact h
  | step run => exact iss_step_consistent run s h
  | halted => exact h

theorem run_calls_consistent (calls : List Call) (s : Iss) (h : req_consistent s) :
    req_consistent (run_calls calls s) := by
  induction calls generalizing s with
  | nil => exact h
  | cons c cs ih => exact ih (c.apply s) (apply_consistent s c h)

/-- C9: in every state reached from a state with `req_write = M_IDLE` and `req_valid = 0`
by any sequence of calls of the two hooks (accepting or declining), of
`iss_ack_write_and_advance`, `iss_set_read_data`, `iss_get_req`, `iss_step` (with any
engine behaviour) and `iss_halted`, `req_valid = 1` holds exactly when `req_write` is not
`M_IDLE`. -/
theorem valid_iff_mode_not_idle (s0 : Iss) (calls : List Call)
    (hmode : s0.req_write = M_IDLE) (hvalid : s0.req_valid = 0) :
    (run_calls calls s0).req_valid = 1 ↔ (run_calls calls s0).req_write ≠ M_IDLE := by
  have h0 : req_consistent s0 := by
    unfold req_consistent
    rw [hmode, hvalid]
    simp
  exact run_calls_consistent calls s0 h0

/-- C9, in the second session: the step for `lui`, the step that stalls on the load, a
look at the request. -/
theorem valid_iff_mode_not_idle_witness :
    (fw16_start.req_write = M_IDLE ∧ fw16_start.req_valid = 0) ∧
    (run_calls [Call.step (plain_run fw16_start), Call.step (load_run GPIO_BASE after_lui),
      Call.get_req] fw16_start).req_write = M_RD ∧
    (run_calls [Call.step (plain_run fw16_start), Call.step (load_run GPIO_BASE after_lui),
      Call.get_req] fw16_start).req_valid = 1 := by
  have h := valid_iff_mode_not_idle fw16_start
    [Call.step (plain_run fw16_start), Call.step (load_run GPIO_BASE after_lui), Call.get_req]
    (by decide) (by decide)
  have hm : (run_calls [Call.step (plain_run fw16_start),
      Call.step (load_run GPIO_BASE after_lui), Call.get_req] fw16_start).req_write = M_RD := by
    decide
  exact ⟨by decide, hm, h.mpr (by rw [hm]; decide)⟩

/-! ## Termination -/

theorem iss_init_state (env : InitEnv) (g : Iss) (sz : Nat)
    (hopen : env.uc_open_err = 0) (hmap : env.uc_mem_map_err = 0)
    (hfile : env.file_len = some sz) (hwrite : env.uc_mem_write_err = 0)
    (hlo : 4 ≤ sz) (hhi : sz ≤ RAM_SIZE) :
    ∃ s0, iss_init env g = some s0 ∧ s0.pc = RAM_BASE ∧ s0.file_size = (sz : Int) - 4 ∧
      s0.g_halted = g.g_halted := by
  have hmin : min sz RAM_SIZE = sz := Nat.min_eq_left hhi
  have hne : ¬ sz = 0 := by omega
  have hfs : int_of_u64 (u64_sub sz 4) = (sz : Int) - 4 := by
    unfold RAM_SIZE at hhi
    rw [u64_sub_of_le sz 4 hlo (by omega), int_of_u64_of_lt _ (by omega)]
    omega
  unfold iss_init load_firmware
  simp only [hopen, hmap, hfile, hwrite, hmin, hne, hfs, ne_eq, not_true_eq_false, if_false]
  refine ⟨_, rfl, ?_, ?_, ?_⟩
  · cases env.regions <;> rfl
  · cases env.regions <;> rfl
  · cases env.regions <;> rfl

theorem completion_address (s : Iss) (sz : Nat) (hfs : s.file_size = (sz : Int) - 4)
    (hlo : 4 ≤ sz) (hhi : sz ≤ RAM_SIZE) :
    u64_add (to_u64 s.file_size) RAM_BASE = RAM_BASE + sz - 4 := by
  rw [hfs]
  unfold RAM_SIZE at hhi
  unfold to_u64 u64_add RAM_BASE
  omega

theorem steps_before_end (sz : Nat) (hlo : 4 ≤ sz) (hhi : sz ≤ RAM_SIZE)
    (runs : List EngineRun) (s : Iss) (j : Nat)
    (hpc : s.pc = RAM_BASE + 4 * j) (hfs : s.file_size = (sz : Int) - 4)
    (hh : s.g_halted = 0) (hlen : 4 * (j + runs.length) < sz) :
    (iss_steps runs s).pc = RAM_BASE + 4 * (j + runs.length) ∧
    (iss_steps runs s).file_size = (sz : Int) - 4 ∧
    (iss_steps runs s).g_halted = 0 := by
  induction runs generalizing s j with
  | nil => exact ⟨by simpa [iss_steps] using hpc, hfs, hh⟩
  | cons r rs ih =>
    rw [List.length_cons] at hlen
    have hfs1 : (iss_step r s).file_size = (sz : Int) - 4 := by
      rw [iss_step_file_size]; exact hfs
    have hpc1 : (iss_step r s).pc = RAM_BASE + 4 * (j + 1) := by
      rw [iss_step_pc, hpc]
      unfold RAM_SIZE at hhi
      unfold RAM_BASE
      omega
    have hh1 : (iss_step r s).g_halted = 0 := by
      rw [iss_step_g_halted, completion_address s sz hfs hlo hhi, hpc, hh]
      split <;> omega
    have h := ih (iss_step r s) (j + 1) hpc1 hfs1 hh1 (by omega)
    rw [iss_steps, List.length_cons]
    refine ⟨?_, h.2.1, h.2.2⟩
    rw [h.1]
    omega

/-- C7: for an image of `sz` bytes, `sz` a multiple of 4 with `4 ≤ sz ≤ RAM_SIZE`, loaded
without errors while `g_halted = 0`, `iss_init` returns a state with `pc = RAM_BASE`,
`file_size = sz - 4` and `iss_halted() = 0`; from it, whatever the engine does in each run,
`iss_halted()` is 0 after every number of `iss_step` calls below `sz / 4` (the program
counter is then `RAM_BASE + 4 * calls`) and 1 after exactly `sz / 4` calls; the step that
sets `g_halted` is the one that starts with the program counter at `RAM_BASE + sz - 4`. -/
theorem iss_halted_after_last_word (env : InitEnv) (g : Iss) (sz : Nat)
    (hopen : env.uc_open_err = 0) (hmap : env.uc_mem_map_err = 0)
    (hfile : env.file_len = some sz) (hwrite : env.uc_mem_write_err = 0)
    (hg : g.g_halted = 0)
    (h4 : sz % 4 = 0) (hlo : 4 ≤ sz) (hhi : sz ≤ RAM_SIZE) :
    ∃ s0, iss_init env g = some s0 ∧
      s0.pc = RAM_BASE ∧ s0.file_size = (sz : Int) - 4 ∧ iss_halted s0 = 0 ∧
      ∀ runs : List EngineRun,
        (runs.length < sz / 4 →
          iss_halted (iss_steps runs s0) = 0 ∧
          (iss_steps runs s0).pc = RAM_BASE + 4 * runs.length) ∧
        (runs.length = sz / 4 → iss_halted (iss_steps runs s0) = 1) ∧
        (runs.length + 1 = sz / 4 →
          (iss_steps runs s0).pc = RAM_BASE + sz - 4 ∧
          iss_halted (iss_steps runs s0) = 0 ∧
          ∀ run : EngineRun, iss_halted (iss_step run (iss_steps runs s0)) = 1) := by
  obtain ⟨s0, hinit, hpc, hfs, hh⟩ := iss_init_state env g sz hopen hmap hfile hwrite hlo hhi
  rw [hg] at hh
  have hpc0 : s0.pc = RAM_BASE + 4 * 0 := by omega
  -- the state before the last step, and the last step
  have hlast : ∀ runs : List EngineRun, runs.length + 1 = sz / 4 →
      (iss_steps runs s0).pc = RAM_BASE + sz - 4 ∧
      iss_halted (iss_steps runs s0) = 0 ∧
      ∀ run : EngineRun, iss_halted (iss_step run (iss_steps runs s0)) = 1 := by
    intro runs hlen
    have h := steps_before_end sz hlo hhi runs s0 0 hpc0 hfs hh (by omega)
    have hpc1 : (iss_steps runs s0).pc = RAM_BASE + sz - 4 := by
      rw [h.1]; omega
    refine ⟨hpc1, by simp [iss_halted, h.2.2], ?_⟩
    intro run
    have hc := completion_address (iss_steps runs s0) sz h.2.1 hlo hhi
    simp [iss_halted, iss_step_g_halted, hc, hpc1]
  refine ⟨s0, hinit, hpc, hfs, by simp [iss_halted, hh], ?_⟩
  intro runs
  refine ⟨?_, ?_, hlast runs⟩
  · intro hlen
    have h := steps_before_end sz hlo hhi runs s0 0 hpc0 hfs hh (by omega)
    refine ⟨by simp [iss_halted, h.2.2], ?_⟩
    rw [h.1]
    omega
  · intro hlen
    have hpos : 0 < runs.length := by omega
    obtain ⟨front, run, hsplit⟩ : ∃ front run, runs = front ++ [run] :=
      ⟨runs.dropLast, runs.getLast (List.ne_nil_of_length_pos hpos),
        (List.dropLast_append_getLast _).symm⟩
    have hfront : front.length + 1 = sz / 4 := by
      rw [← hlen, hsplit, List.length_append, List.length_singleton]
    rw [hsplit, iss_steps_append]
    exact (hlast front hfront).2.2 run

/-- C7, for the 16-byte image of the first session: not halted after three steps, halted
after four. -/
theorem iss_halted_after_last_word_witness :
    iss_init fw16_env boot = some fw16_start ∧
    iss_halted (iss_steps [plain_run fw16_start, plain_run after_lui,
      store_run GPIO_BASE 1 before_store] fw16_start) = 0 ∧
    iss_halted (iss_steps [plain_run fw16_start, plain_run after_lui,
      store_run GPIO_BASE 1 before_store, fault_run stalled_on_write] fw16_start) = 1 := by
  have hs : iss_init fw16_env boot = some fw16_start := by decide
  obtain ⟨s0, hinit, _, _, _, hsteps⟩ :=
    iss_halted_after_last_word fw16_env boot 16 (by decide) (by decide) (by decide)
      (by decide) (by decide) (by decide) (by decide) (by decide)
  have hs0 : fw16_start = s0 := by
    rw [hs] at hinit
    exact Option.some.inj hinit
  subst hs0
  exact ⟨hs,
    ((hsteps [plain_run fw16_start, plain_run after_lui,
      store_run GPIO_BASE 1 before_store]).1 (by decide)).1,
    (hsteps [plain_run fw16_start, plain_run after_lui,
      store_run GPIO_BASE 1 before_store, fault_run stalled_on_write]).2.1 (by decide)⟩

end IssDriver
